import Mathlib

/-!
Shallow embedding of the TTK4145 elevator project's control core
(`src/elevator/fsm.rs`, `src/coordinator/coordinator.rs`,
`src/shared/structs.rs`), together with theorems settling the frozen
claims about it.

Rust `HashMap<String, ElevatorState>` is embedded as an association list
whose list order stands for the (otherwise unspecified) iteration order of
the map; `insert` replaces in place for a present key and appends a new
key, `remove`/`retain` filter.  Channel sends are collected as explicit
output lists.  `Instant`-based timers are abstracted by boolean
"timer expired" inputs to the periodic tick.
-/

namespace Elev

/-- `Behaviour` from `shared/structs.rs`. -/
inductive Behaviour
  | Idle
  | Moving
  | DoorOpen
  | Error
deriving DecidableEq, Repr

/-- `Direction` from `shared/structs.rs`. -/
inductive Direction
  | Up
  | Down
  | Stop
deriving DecidableEq, Repr

/-- `ElevatorState` from `shared/structs.rs` (`floor: u8` as `Nat`). -/
structure ElevatorState where
  behaviour : Behaviour
  floor : Nat
  direction : Direction
  cab_requests : List Bool
deriving DecidableEq, Repr

/-- `ElevatorState::new(n_floors)`. -/
def ElevatorState.new (n_floors : Nat) : ElevatorState :=
  { behaviour := Behaviour.Idle
    floor := 0
    direction := Direction.Stop
    cab_requests := List.replicate n_floors false }

/-- The `Vec<Vec<bool>>` hall-request matrix. -/
abbrev HallMatrix := List (List Bool)

/-- Button-kind constants from `driver_rust::elevio::elev`. -/
def HALL_UP : Nat := 0

def HALL_DOWN : Nat := 1

def CAB : Nat := 2

/-- Read `m[f][k]` (Rust indexing; out of range reads default to `false`,
which never happens on the well-formed inputs the theorems use). -/
def getHall (m : HallMatrix) (f k : Nat) : Bool :=
  (m.getD f []).getD k false

/-- Write `m[f][k] = b` (no-op out of range, as `List.set`). -/
def setHall (m : HallMatrix) (f k : Nat) (b : Bool) : HallMatrix :=
  m.set f ((m.getD f []).set k b)

/-! ## FSM data (`elevator/fsm.rs`) -/

/-- The fields of `ElevatorFSM` that carry state (channels become
outputs, timers become tick inputs). -/
structure ElevatorFSM where
  hall_requests : HallMatrix
  state : ElevatorState
  n_floors : Nat
  obstruction : Bool
  peer_enable : Bool
deriving DecidableEq, Repr

/-- Messages the FSM sends on its outgoing channels. -/
inductive FSMOutput
  | motorDir (d : Direction)
  | floorIndicator (f : Nat)
  | doorLight (b : Bool)
  | orderComplete (floor : Nat) (button : Nat)
  | statePub (s : ElevatorState)
  | peerEnable (b : Bool)
  | saveCab (cab : List Bool)
deriving DecidableEq, Repr

/-- `ElevatorFSM::complete_orders`.  Returns the updated FSM, the channel
messages it sent, and the `orders_completed` result. -/
def complete_orders (fsm : ElevatorFSM) : ElevatorFSM × List FSMOutput × Bool :=
  let current_floor := fsm.state.floor
  let is_top_floor := current_floor == fsm.n_floors - 1
  let is_bottom_floor := current_floor == 0
  let cab_at_current_floor := fsm.state.cab_requests.getD current_floor false
  let hall_up_at_current_floor := getHall fsm.hall_requests current_floor HALL_UP
  let hall_down_at_current_floor := getHall fsm.hall_requests current_floor HALL_DOWN
  let current_direction := fsm.state.direction
  let current_behaviour := fsm.state.behaviour
  -- Remove cab orders at current floor.
  let step1 : ElevatorFSM × List FSMOutput × Bool :=
    if cab_at_current_floor then
      let cab' := fsm.state.cab_requests.set current_floor false
      ({ fsm with state := { fsm.state with cab_requests := cab' } },
       [FSMOutput.orderComplete current_floor CAB, FSMOutput.saveCab cab'],
       true)
    else (fsm, [], false)
  -- Remove hall up orders if moving up, stopped or at bottom floor.
  let step2 : ElevatorFSM × List FSMOutput × Bool :=
    if hall_up_at_current_floor
        && (current_direction == Direction.Up || is_bottom_floor
            || current_behaviour == Behaviour.Idle) then
      ({ step1.1 with
          hall_requests := setHall step1.1.hall_requests current_floor HALL_UP false },
       step1.2.1 ++ [FSMOutput.orderComplete current_floor HALL_UP],
       true)
    else step1
  -- Remove hall down orders if moving down, stopped or at top floor.
  if hall_down_at_current_floor
      && (current_direction == Direction.Down || is_top_floor
          || current_behaviour == Behaviour.Idle) then
    ({ step2.1 with
        hall_requests := setHall step2.1.hall_requests current_floor HALL_DOWN false },
     step2.2.1 ++ [FSMOutput.orderComplete current_floor HALL_DOWN],
     true)
  else step2

/-- `ElevatorFSM::has_orders_in_direction`:
`Up` scans floors `(floor+1)..n_floors`, `Down` scans `(0..floor).rev()`,
`Stop` yields false. -/
def has_orders_in_direction (fsm : ElevatorFSM) (direction : Direction) : Bool :=
  let order_at := fun (f : Nat) =>
    fsm.state.cab_requests.getD f false
      || getHall fsm.hall_requests f HALL_UP
      || getHall fsm.hall_requests f HALL_DOWN
  match direction with
  | Direction.Up =>
      (List.range' (fsm.state.floor + 1) (fsm.n_floors - (fsm.state.floor + 1))).any order_at
  | Direction.Down =>
      (List.range fsm.state.floor).any order_at
  | Direction.Stop => false

/-- `ElevatorFSM::choose_direction`. -/
def choose_direction (fsm : ElevatorFSM) : Direction :=
  let current_direction := fsm.state.direction
  if has_orders_in_direction fsm current_direction then current_direction
  else if current_direction == Direction.Up
      && has_orders_in_direction fsm Direction.Down then Direction.Down
  else if current_direction == Direction.Down
      && has_orders_in_direction fsm Direction.Up then Direction.Up
  else if current_direction == Direction.Stop then
    if has_orders_in_direction fsm Direction.Up then Direction.Up
    else if has_orders_in_direction fsm Direction.Down then Direction.Down
    else Direction.Stop
  else Direction.Stop

/-- `ElevatorFSM::open_door` (door timer reset is a timer effect,
abstracted away). -/
def open_door (fsm : ElevatorFSM) : ElevatorFSM × List FSMOutput :=
  let fsm' := { fsm with state := { fsm.state with behaviour := Behaviour.DoorOpen } }
  (fsm', [FSMOutput.doorLight true, FSMOutput.statePub fsm'.state])

/-- `ElevatorFSM::close_door`. -/
def close_door : List FSMOutput :=
  [FSMOutput.doorLight false]

/-- `ElevatorFSM::handle_floor_hit`. -/
def handle_floor_hit (fsm : ElevatorFSM) (floor : Nat) : ElevatorFSM × List FSMOutput :=
  -- Re-enable the peer transmitter if motor power just came back.
  let restore : ElevatorFSM × List FSMOutput :=
    if fsm.state.behaviour == Behaviour.Moving && !fsm.peer_enable then
      ({ fsm with peer_enable := true }, [FSMOutput.peerEnable true])
    else (fsm, [])
  let fsm1 := { restore.1 with state := { restore.1.state with floor := floor } }
  let outs1 := restore.2 ++ [FSMOutput.floorIndicator floor]
  let co := complete_orders fsm1
  if co.2.2 then
    let od := open_door co.1
    (od.1, outs1 ++ co.2.1 ++ [FSMOutput.motorDir Direction.Stop] ++ od.2
      ++ [FSMOutput.statePub od.1.state])
  else
    let dir := choose_direction co.1
    let fsm2 := { co.1 with state := { co.1.state with direction := dir } }
    if dir == Direction.Stop then
      let fsm3 := { fsm2 with state := { fsm2.state with behaviour := Behaviour.Idle } }
      (fsm3, outs1 ++ co.2.1 ++ [FSMOutput.motorDir dir, FSMOutput.statePub fsm3.state])
    else
      let fsm3 := { fsm2 with state := { fsm2.state with behaviour := Behaviour.Moving } }
      (fsm3, outs1 ++ co.2.1 ++ [FSMOutput.motorDir dir, FSMOutput.statePub fsm3.state])

/-- One execution of the `default(Duration::from_millis(100))` arm of
`ElevatorFSM::run`.  `door_expired` and `motor_expired` stand for the
`door_timer <= Instant::now()` and `motor_timer <= Instant::now()` tests.
The source `match` has no arm for `Behaviour::Error` (that variant is
never reached); the model returns the state unchanged there. -/
def fsm_tick (fsm : ElevatorFSM) (door_expired motor_expired : Bool) :
    ElevatorFSM × List FSMOutput :=
  match fsm.state.behaviour with
  | Behaviour.Idle =>
      let co := complete_orders fsm
      let afterDoor : ElevatorFSM × List FSMOutput :=
        if co.2.2 then
          let od := open_door co.1
          (od.1, co.2.1 ++ od.2)
        else (co.1, co.2.1)
      let dir := choose_direction afterDoor.1
      let fsm2 := { afterDoor.1 with state := { afterDoor.1.state with direction := dir } }
      if dir != Direction.Stop then
        ({ fsm2 with state := { fsm2.state with behaviour := Behaviour.Moving } },
         afterDoor.2 ++ [FSMOutput.motorDir dir])
      else (fsm2, afterDoor.2)
  | Behaviour.DoorOpen =>
      if fsm.obstruction then (fsm, [])
      else if door_expired then
        let dir := choose_direction fsm
        let fsm1 := { fsm with state := { fsm.state with direction := dir } }
        let co := complete_orders fsm1
        let fsm2 :=
          if dir == Direction.Stop then
            { co.1 with state := { co.1.state with behaviour := Behaviour.Idle } }
          else
            { co.1 with state := { co.1.state with behaviour := Behaviour.Moving } }
        (fsm2, close_door ++ co.2.1 ++ [FSMOutput.motorDir dir, FSMOutput.statePub fsm2.state])
      else (fsm, [])
  | Behaviour.Moving =>
      if motor_expired then
        let disable : ElevatorFSM × List FSMOutput :=
          if fsm.peer_enable then
            ({ fsm with peer_enable := false }, [FSMOutput.peerEnable false])
          else (fsm, [])
        (disable.1, disable.2 ++ [FSMOutput.motorDir fsm.state.direction])
      else (fsm, [])
  | Behaviour.Error => (fsm, [])

/-- Inputs the FSM main loop can receive (one `select!` arm each). -/
inductive FSMEvent
  | floorSensor (f : Nat)
  | hallRequestsMsg (h : HallMatrix)
  | cabRequest (f : Nat)
  | stopButton (b : Bool)
  | obstructionMsg (b : Bool)
  | tick (door_expired motor_expired : Bool)
deriving DecidableEq, Repr

/-- One iteration of the `ElevatorFSM::run` select loop. -/
def fsm_step (e : FSMEvent) (fsm : ElevatorFSM) : ElevatorFSM × List FSMOutput :=
  match e with
  | FSMEvent.floorSensor f => handle_floor_hit fsm f
  | FSMEvent.hallRequestsMsg h => ({ fsm with hall_requests := h }, [])
  | FSMEvent.cabRequest f =>
      let cab' := fsm.state.cab_requests.set f true
      let fsm' := { fsm with state := { fsm.state with cab_requests := cab' } }
      (fsm', [FSMOutput.saveCab cab', FSMOutput.statePub fsm'.state])
  | FSMEvent.stopButton _ => (fsm, [])
  | FSMEvent.obstructionMsg b => ({ fsm with obstruction := b }, [])
  | FSMEvent.tick d m => fsm_tick fsm d m

/-- The FSM state right after `ElevatorFSM::new` plus
`load_saved_cab_calls` (the persisted cab vector is arbitrary input). -/
def initFSM (n_floors : Nat) (loaded_cab : List Bool) : ElevatorFSM :=
  { hall_requests := List.replicate n_floors [false, false]
    state := { ElevatorState.new n_floors with cab_requests := loaded_cab }
    n_floors := n_floors
    obstruction := false
    peer_enable := true }

/-- States the FSM main loop can reach. -/
inductive FSMReachable (n_floors : Nat) : ElevatorFSM → Prop
  | init (loaded_cab : List Bool) : FSMReachable n_floors (initFSM n_floors loaded_cab)
  | step (e : FSMEvent) (fsm : ElevatorFSM) :
      FSMReachable n_floors fsm → FSMReachable n_floors (fsm_step e fsm).1

/-! ## Coordinator data (`coordinator/coordinator.rs`) -/

/-- `HashMap<String, ElevatorState>` as an association list; the list
order stands for the map's iteration order. -/
abbrev States := List (String × ElevatorState)

/-- `HashMap::contains_key`. -/
def containsKey (m : States) (k : String) : Bool :=
  m.any (fun kv => kv.1 == k)

/-- `HashMap::get`. -/
def getState (m : States) (k : String) : Option ElevatorState :=
  (m.find? (fun kv => kv.1 == k)).map Prod.snd

/-- `HashMap::insert`: replace in place when present, else append. -/
def insertState (m : States) (k : String) (v : ElevatorState) : States :=
  if containsKey m k then
    m.map (fun kv => if kv.1 == k then (kv.1, v) else kv)
  else m ++ [(k, v)]

/-- `HashMap::remove`. -/
def removeState (m : States) (k : String) : States :=
  m.filter (fun kv => !(kv.1 == k))

/-- `HashMap::get_mut(k).unwrap()` followed by a value update: `none`
models the `unwrap` panic when the key is absent. -/
def getMutUpdate (m : States) (k : String) (f : ElevatorState → ElevatorState) :
    Option States :=
  if containsKey m k then
    some (m.map (fun kv => if kv.1 == k then (kv.1, f kv.2) else kv))
  else none

/-- `ElevatorData` from `shared/structs.rs` (`version: u64` as `Nat`;
version arithmetic in the source never wraps in any realistic run). -/
structure ElevatorData where
  version : Nat
  hall_requests : HallMatrix
  states : States
deriving DecidableEq, Repr

/-- `ElevatorData::new(n_floors)`. -/
def ElevatorData.new (n_floors : Nat) : ElevatorData :=
  { version := 0
    hall_requests := List.replicate n_floors [false, false]
    states := [] }

/-- The state-carrying fields of `Coordinator`. -/
structure Coordinator where
  elevator_data : ElevatorData
  local_id : String
  n_floors : Nat
deriving DecidableEq, Repr

/-- `MergeType` from `coordinator/coordinator.rs`. -/
inductive MergeType
  | Merge
  | Accept
  | Reject
deriving DecidableEq, Repr

/-- `Coordinator::check_merge_type`.  The source loops over the LOCAL
map's keys and overwrites `new_elevators` on every iteration with
whether the key is absent from the incoming data, so only the key
iterated last decides. -/
def check_merge_type (c : Coordinator) (elevator_data : ElevatorData) : MergeType :=
  let new_elevators :=
    c.elevator_data.states.foldl
      (fun _ kv => !(containsKey elevator_data.states kv.1)) false
  if new_elevators then MergeType.Merge
  else if elevator_data.version > c.elevator_data.version then MergeType.Accept
  else MergeType.Reject

/-- Messages the Coordinator sends on its outgoing channels, plus one
marker for each invocation of the external assigner subprocess (carrying
the version-stripped data handed to it). -/
inductive COutput
  | light (floor button : Nat) (lit : Bool)
  | fsmHall (h : HallMatrix)
  | fsmCab (floor : Nat)
  | netSend (d : ElevatorData)
  | assignerCall (hall : HallMatrix) (states : States)
deriving DecidableEq, Repr

/-- The external `hall_request_assigner` subprocess as an oracle from its
(version-stripped) input to the decoded `{id -> N×2 matrix}` output. -/
abbrev Assigner := HallMatrix → States → List (String × HallMatrix)

/-- `Coordinator::remove_error_states` (`retain` keeps non-Error). -/
def remove_error_states (states : States) : States :=
  states.filter (fun kv => !(kv.2.behaviour == Behaviour.Error))

/-- The `local_hall_requests` extraction loop of
`Coordinator::hall_request_assigner`. -/
def extract_local_hall (n_floors : Nat) (local_id : String)
    (hra_output : List (String × HallMatrix)) : HallMatrix :=
  hra_output.foldl
    (fun acc kv =>
      if kv.1 == local_id then
        (List.range n_floors).foldl
          (fun m floor =>
            let m1 := setHall m floor HALL_UP (getHall kv.2 floor HALL_UP)
            setHall m1 floor HALL_DOWN (getHall kv.2 floor HALL_DOWN))
          acc
      else acc)
    (List.replicate n_floors [false, false])

/-- `Coordinator::hall_request_assigner`. -/
def hall_request_assigner (oracle : Assigner) (c : Coordinator) (transmit : Bool) :
    Coordinator × List COutput :=
  let filtered := remove_error_states c.elevator_data.states
  if filtered.isEmpty then
    let outs := [COutput.fsmHall c.elevator_data.hall_requests]
    if transmit then
      let d' := { c.elevator_data with version := c.elevator_data.version + 1 }
      ({ c with elevator_data := d' }, outs ++ [COutput.netSend d'])
    else (c, outs)
  else
    let hra_output := oracle c.elevator_data.hall_requests filtered
    let local_hall := extract_local_hall c.n_floors c.local_id hra_output
    let outs := [COutput.assignerCall c.elevator_data.hall_requests filtered,
                 COutput.fsmHall local_hall]
    if transmit then
      let d' := { c.elevator_data with version := c.elevator_data.version + 1 }
      ({ c with elevator_data := d' }, outs ++ [COutput.netSend d'])
    else (c, outs)

/-- The hall-lamp delta loop of the `Accept` branch of
`Coordinator::handle_event` (per floor: `HALL_DOWN` checked first). -/
def accept_light_updates (n_floors : Nat) (oldH newH : HallMatrix) : List COutput :=
  (List.range n_floors).foldl
    (fun acc floor =>
      let acc1 :=
        if getHall newH floor HALL_DOWN != getHall oldH floor HALL_DOWN then
          acc ++ [COutput.light floor HALL_DOWN (getHall newH floor HALL_DOWN)]
        else acc
      if getHall newH floor HALL_UP != getHall oldH floor HALL_UP then
        acc1 ++ [COutput.light floor HALL_UP (getHall newH floor HALL_UP)]
      else acc1)
    []

/-- The hall-request OR loop of the `Merge` branch (per floor:
`HALL_DOWN` first, then `HALL_UP`). -/
def merge_hall_requests (n_floors : Nat) (localH incoming : HallMatrix) : HallMatrix :=
  (List.range n_floors).foldl
    (fun acc floor =>
      let acc1 := setHall acc floor HALL_DOWN
        (getHall acc floor HALL_DOWN || getHall incoming floor HALL_DOWN)
      setHall acc1 floor HALL_UP
        (getHall acc1 floor HALL_UP || getHall incoming floor HALL_UP))
    localH

/-- The state-overwrite loop of the `Merge` branch: every non-local
incoming entry replaces the local one. -/
def merge_states (local_id : String) (localS incoming : States) : States :=
  incoming.foldl
    (fun acc kv => if !(kv.1 == local_id) then insertState acc kv.1 kv.2 else acc)
    localS

/-- `Event::NewPackage` handling in `Coordinator::handle_event`. -/
def handle_new_package (oracle : Assigner) (c : Coordinator)
    (elevator_data : ElevatorData) : Coordinator × List COutput :=
  match check_merge_type c elevator_data with
  | MergeType.Accept =>
      let lights := accept_light_updates c.n_floors
        c.elevator_data.hall_requests elevator_data.hall_requests
      let c1 := { c with elevator_data :=
        { version := elevator_data.version
          hall_requests := elevator_data.hall_requests
          states := elevator_data.states } }
      let hra := hall_request_assigner oracle c1 false
      (hra.1, lights ++ hra.2)
  | MergeType.Merge =>
      let merged_hall := merge_hall_requests c.n_floors
        c.elevator_data.hall_requests elevator_data.hall_requests
      let merged_states := merge_states c.local_id
        c.elevator_data.states elevator_data.states
      ({ c with elevator_data :=
          { c.elevator_data with
              hall_requests := merged_hall
              states := merged_states } }, [])
  | MergeType.Reject => (c, [])

/-- `PeerUpdate` from `network_rust::udpnet::peers`. -/
structure PeerUpdate where
  peers : List String
  new : Option String
  lost : List String
deriving DecidableEq, Repr

/-- `Event::NewPeerUpdate` handling: remove lost non-local ids, insert a
default state for the new id, then reassign (without and/or with
transmission). -/
def handle_new_peer_update (oracle : Assigner) (c : Coordinator)
    (peer_update : PeerUpdate) : Coordinator × List COutput :=
  let states1 := peer_update.lost.foldl
    (fun acc id => if !(id == c.local_id) then removeState acc id else acc)
    c.elevator_data.states
  let states2 := peer_update.new.toList.foldl
    (fun acc id =>
      insertState acc id
        { behaviour := Behaviour.Idle
          floor := 0
          direction := Direction.Stop
          cab_requests := List.replicate c.n_floors false })
    states1
  let c1 := { c with elevator_data := { c.elevator_data with states := states2 } }
  let afterLost : Coordinator × List COutput :=
    if peer_update.lost.length > 0 then hall_request_assigner oracle c1 false
    else (c1, [])
  if peer_update.new.isSome then
    let hra := hall_request_assigner oracle afterLost.1 true
    (hra.1, afterLost.2 ++ hra.2)
  else afterLost

/-- `Event::RequestReceived` handling; `none` models the
`get_mut(local_id).unwrap()` panic on a cab press with no local entry. -/
def handle_request_received (oracle : Assigner) (c : Coordinator)
    (request : Nat × Nat) : Option (Coordinator × List COutput) :=
  if request.2 == CAB then
    match getMutUpdate c.elevator_data.states c.local_id
        (fun s => { s with cab_requests := s.cab_requests.set request.1 true }) with
    | none => none
    | some states' =>
        some ({ c with elevator_data := { c.elevator_data with states := states' } },
          [COutput.fsmCab request.1, COutput.light request.1 CAB true])
  else if request.2 == HALL_DOWN || request.2 == HALL_UP then
    let c1 := { c with elevator_data :=
      { c.elevator_data with
          hall_requests := setHall c.elevator_data.hall_requests request.1 request.2 true } }
    let hra := hall_request_assigner oracle c1 true
    some (hra.1, hra.2 ++ [COutput.light request.1 request.2 true])
  else some (c, [])

/-- `Event::NewElevatorState` handling; `none` models the
`states[&local_id]` indexing panic when the local entry is absent. -/
def handle_new_elevator_state (oracle : Assigner) (c : Coordinator)
    (elevator_state : ElevatorState) : Option (Coordinator × List COutput) :=
  match getState c.elevator_data.states c.local_id with
  | none => none
  | some current =>
      let lights := (List.range c.n_floors).foldl
        (fun acc floor =>
          if !(current.cab_requests.getD floor false)
              && elevator_state.cab_requests.getD floor false then
            acc ++ [COutput.light floor CAB true]
          else acc)
        []
      -- `if let Some(state) = get_mut(..) { *state = .. }`: update when present.
      let states' := c.elevator_data.states.map
        (fun kv => if kv.1 == c.local_id then (kv.1, elevator_state) else kv)
      let c1 := { c with elevator_data := { c.elevator_data with states := states' } }
      let hra := hall_request_assigner oracle c1 true
      some (hra.1, lights ++ hra.2)

/-- `Event::OrderComplete` handling; `none` models the
`get_mut(local_id).unwrap()` panic for a cab completion with no local
entry. -/
def handle_order_complete (oracle : Assigner) (c : Coordinator)
    (completed_order : Nat × Nat) : Option (Coordinator × List COutput) :=
  let afterCab : Option Coordinator :=
    if completed_order.2 == CAB then
      match getMutUpdate c.elevator_data.states c.local_id
          (fun s => { s with cab_requests := s.cab_requests.set completed_order.1 false }) with
      | none => none
      | some states' =>
          some { c with elevator_data := { c.elevator_data with states := states' } }
    else some c
  match afterCab with
  | none => none
  | some c1 =>
      let c2 :=
        if completed_order.2 == HALL_DOWN || completed_order.2 == HALL_UP then
          { c1 with elevator_data :=
            { c1.elevator_data with
                hall_requests :=
                  setHall c1.elevator_data.hall_requests
                    completed_order.1 completed_order.2 false } }
        else c1
      let hra := hall_request_assigner oracle c2 true
      some (hra.1,
        [COutput.light completed_order.1 completed_order.2 false] ++ hra.2)

/-- `Event` from `coordinator/coordinator.rs`. -/
inductive CEvent
  | NewPackage (d : ElevatorData)
  | RequestReceived (r : Nat × Nat)
  | NewPeerUpdate (p : PeerUpdate)
  | NewElevatorState (s : ElevatorState)
  | OrderComplete (r : Nat × Nat)

/-- `Coordinator::handle_event`; `none` models a panic. -/
def handle_event (oracle : Assigner) (c : Coordinator) (event : CEvent) :
    Option (Coordinator × List COutput) :=
  match event with
  | CEvent.NewPackage d => some (handle_new_package oracle c d)
  | CEvent.RequestReceived r => handle_request_received oracle c r
  | CEvent.NewPeerUpdate p => some (handle_new_peer_update oracle c p)
  | CEvent.NewElevatorState s => handle_new_elevator_state oracle c s
  | CEvent.OrderComplete r => handle_order_complete oracle c r

/-! ## Concrete states and spec-side definitions used by the theorems -/

/-- A concrete FSM state: behaviour `Moving`, floor 0, direction `Up`,
two floors, no pending orders, peer transmitter enabled. -/
def movingFSM : ElevatorFSM :=
  { hall_requests := [[false, false], [false, false]]
    state := { behaviour := Behaviour.Moving
               floor := 0
               direction := Direction.Up
               cab_requests := [false, false] }
    n_floors := 2
    obstruction := false
    peer_enable := true }
/-- "Orders at floor f" in the spec's words:
`cab[f] ∨ hall_up[f] ∨ hall_down[f]`. -/
def order_at_floor (fsm : ElevatorFSM) (f : Nat) : Bool :=
  fsm.state.cab_requests.getD f false
    || getHall fsm.hall_requests f HALL_UP
    || getHall fsm.hall_requests f HALL_DOWN

/-- Orders exist strictly above the current floor (spec's words). -/
def spec_orders_above (fsm : ElevatorFSM) : Bool :=
  (List.range fsm.n_floors).any
    (fun g => decide (fsm.state.floor < g) && order_at_floor fsm g)

/-- Orders exist strictly below the current floor (spec's words). -/
def spec_orders_below (fsm : ElevatorFSM) : Bool :=
  (List.range fsm.n_floors).any
    (fun g => decide (g < fsm.state.floor) && order_at_floor fsm g)

/-- The direction-choice policy exactly as §4.1.3 of the spec states it
(rule 1: keep D on orders in D; rule 2: reverse; rule 3: from Stop
prefer Up; rule 4: Stop). -/
def spec_choose_direction (fsm : ElevatorFSM) : Direction :=
  match fsm.state.direction with
  | Direction.Up =>
      if spec_orders_above fsm then Direction.Up
      else if spec_orders_below fsm then Direction.Down
      else Direction.Stop
  | Direction.Down =>
      if spec_orders_below fsm then Direction.Down
      else if spec_orders_above fsm then Direction.Up
      else Direction.Stop
  | Direction.Stop =>
      if spec_orders_above fsm then Direction.Up
      else if spec_orders_below fsm then Direction.Down
      else Direction.Stop
/-- A concrete FSM state at floor 0, Moving with direction Up, with a
pending HALL_DOWN request at floor 0 (and more than one floor, so floor
0 is not also the top floor). -/
def bottomPendingFSM : ElevatorFSM :=
  { hall_requests := [[false, true], [false, false]]
    state := { behaviour := Behaviour.Moving
               floor := 0
               direction := Direction.Up
               cab_requests := [false, false] }
    n_floors := 2
    obstruction := false
    peer_enable := true }
/-- The three behaviours the FSM actually uses. -/
def behaviour_ok (fsm : ElevatorFSM) : Prop :=
  fsm.state.behaviour = Behaviour.Idle ∨ fsm.state.behaviour = Behaviour.Moving
    ∨ fsm.state.behaviour = Behaviour.DoorOpen
def oneFloorState : ElevatorState := ElevatorState.new 1

/-- Local data knowing only peer "A" (the local id), version 0. -/
def c1_local : Coordinator :=
  { elevator_data :=
      { version := 0
        hall_requests := [[false, false]]
        states := [("A", oneFloorState)] }
    local_id := "A"
    n_floors := 1 }

/-- Incoming snapshot containing the unknown peer "B", same version. -/
def c1_incoming : ElevatorData :=
  { version := 0
    hall_requests := [[false, false]]
    states := [("A", oneFloorState), ("B", oneFloorState)] }
/-- The trivial assigner oracle used for concrete evaluations. -/
def oracle0 : Assigner := fun _ _ => []
/-- Local data for the C8 counterexample: version 0, one pending
hall-up call, only the local entry "L". -/
def c8_local : Coordinator :=
  { elevator_data :=
      { version := 0
        hall_requests := [[true, false]]
        states := [("L", oneFloorState)] }
    local_id := "L"
    n_floors := 1 }

/-- Incoming snapshot for the C8 counterexample: higher version, no
hall calls, and only the unknown peer "A". -/
def c8_incoming : ElevatorData :=
  { version := 1
    hall_requests := [[false, false]]
    states := [("A", oneFloorState)] }
/-- Concrete coordinator whose local entry "L" is iterated first; a
known peer "A" is iterated last. -/
def c4_local : Coordinator :=
  { elevator_data :=
      { version := 0
        hall_requests := [[false, false]]
        states := [("L", oneFloorState), ("A", oneFloorState)] }
    local_id := "L"
    n_floors := 1 }

/-- Incoming snapshot with a higher version that does NOT contain the
local id "L". -/
def c4_incoming : ElevatorData :=
  { version := 1
    hall_requests := [[false, false]]
    states := [("A", oneFloorState)] }

/-! ## Helper lemmas about list reads and writes -/

theorem getD_set_self {α : Type} :
    ∀ (l : List α) (i : Nat) (a d : α), i < l.length → (l.set i a).getD i d = a
  | [], i, _, _, h => absurd h (by simp)
  | _ :: _, 0, _, _, _ => rfl
  | _ :: xs, i + 1, a, d, h => getD_set_self xs i a d (by simpa using h)

theorem getD_set_ne {α : Type} :
    ∀ (l : List α) (i j : Nat) (a d : α), i ≠ j → (l.set i a).getD j d = l.getD j d
  | [], _, _, _, _, _ => rfl
  | _ :: _, 0, 0, _, _, h => absurd rfl h
  | _ :: _, 0, _ + 1, _, _, _ => rfl
  | _ :: _, _ + 1, 0, _, _, _ => rfl
  | _ :: xs, i + 1, j + 1, a, d, h =>
      getD_set_ne xs i j a d (fun hij => h (by omega))

theorem getHall_setHall_self {m : HallMatrix} {f k : Nat} {b : Bool}
    (hf : f < m.length) (hk : k < (m.getD f []).length) :
    getHall (setHall m f k b) f k = b := by
  unfold getHall setHall
  rw [getD_set_self _ _ _ _ hf, getD_set_self _ _ _ _ hk]

theorem getHall_setHall_ne_k {m : HallMatrix} {f k k' : Nat} {b : Bool}
    (h : k ≠ k') : getHall (setHall m f k b) f k' = getHall m f k' := by
  unfold getHall setHall
  by_cases hf : f < m.length
  · rw [getD_set_self _ _ _ _ hf, getD_set_ne _ _ _ _ _ h]
  · rw [List.set_eq_of_length_le (by omega)]

theorem getHall_setHall_ne_f {m : HallMatrix} {f f' k k' : Nat} {b : Bool}
    (h : f ≠ f') : getHall (setHall m f k b) f' k' = getHall m f' k' := by
  unfold getHall setHall
  rw [getD_set_ne _ _ _ _ _ h]

theorem length_setHall (m : HallMatrix) (f k : Nat) (b : Bool) :
    (setHall m f k b).length = m.length := by
  unfold setHall
  exact List.length_set ..

theorem rowlen_setHall (m : HallMatrix) (f k f' : Nat) (b : Bool) :
    ((setHall m f k b).getD f' []).length = (m.getD f' []).length := by
  unfold setHall
  by_cases h : f = f'
  · subst h
    by_cases hf : f < m.length
    · rw [getD_set_self _ _ _ _ hf]
      exact List.length_set ..
    · rw [List.set_eq_of_length_le (by omega)]
  · rw [getD_set_ne _ _ _ _ _ h]

/-! ## C2: motor-timeout behaviour while Moving -/

/-- C2 counterexample: at a concrete Moving state whose motor timeout
expires with no floor edge, the tick leaves behaviour `Moving` (never
`Error`) and publishes no `ElevatorState` at all — it only disables the
peer transmitter and retries the motor command.  This refutes the claim
that the FSM transitions to Error and publishes an Error state. -/
theorem C2_counterexample :
    (fsm_tick movingFSM false true).1.state.behaviour = Behaviour.Moving
      ∧ (fsm_tick movingFSM false true).2
          = [FSMOutput.peerEnable false, FSMOutput.motorDir Direction.Up] := by
  constructor <;> rfl

/-- C2 (amended): whenever the FSM is Moving and the motor timeout
expires without a floor-sensor edge, with the peer transmitter enabled,
the FSM keeps behaviour Moving, sends `false` on the peer-transmit-enable
channel (taking the node off the network so that peers reassign its hall
calls), retries the motor command, and publishes no state. -/
theorem C2_motor_timeout_disables_peer_tx (fsm : ElevatorFSM) (d : Bool)
    (hb : fsm.state.behaviour = Behaviour.Moving)
    (hp : fsm.peer_enable = true) :
    (fsm_tick fsm d true).1.state.behaviour = Behaviour.Moving
      ∧ (fsm_tick fsm d true).1.peer_enable = false
      ∧ (fsm_tick fsm d true).2
          = [FSMOutput.peerEnable false, FSMOutput.motorDir fsm.state.direction] := by
  unfold fsm_tick
  rw [hb]
  simp [hp, hb]

/-- Witness for `C2_motor_timeout_disables_peer_tx` at `movingFSM`. -/
theorem C2_motor_timeout_disables_peer_tx_witness :
    (fsm_tick movingFSM false true).1.state.behaviour = Behaviour.Moving
      ∧ (fsm_tick movingFSM false true).1.peer_enable = false
      ∧ (fsm_tick movingFSM false true).2
          = [FSMOutput.peerEnable false, FSMOutput.motorDir movingFSM.state.direction] :=
  C2_motor_timeout_disables_peer_tx movingFSM false rfl rfl

/-! ## C6: direction choice -/

theorem any_range'_iff (p : Nat → Bool) :
    ∀ (b a : Nat), ((List.range' a b).any p = true ↔ ∃ g, a ≤ g ∧ g < a + b ∧ p g = true)
  | 0, a => by
      constructor
      · intro h
        simp at h
      · rintro ⟨g, h1, h2, _⟩
        omega
  | b + 1, a => by
      rw [List.range'_succ]
      simp only [List.any_cons, Bool.or_eq_true]
      rw [any_range'_iff p b (a + 1)]
      constructor
      · rintro (hp | ⟨g, h1, h2, hp⟩)
        · exact ⟨a, le_refl a, by omega, hp⟩
        · exact ⟨g, by omega, by omega, hp⟩
      · rintro ⟨g, h1, h2, hp⟩
        by_cases hga : g = a
        · exact Or.inl (hga ▸ hp)
        · exact Or.inr ⟨g, by omega, by omega, hp⟩

theorem any_range_iff (p : Nat → Bool) (n : Nat) :
    (List.range n).any p = true ↔ ∃ g, g < n ∧ p g = true := by
  simp only [List.any_eq_true, List.mem_range]

theorem has_orders_up_eq (fsm : ElevatorFSM) :
    has_orders_in_direction fsm Direction.Up = spec_orders_above fsm := by
  unfold has_orders_in_direction spec_orders_above order_at_floor
  rw [Bool.eq_iff_iff, any_range'_iff, any_range_iff]
  constructor
  · rintro ⟨g, h1, h2, hp⟩
    refine ⟨g, by omega, ?_⟩
    rw [Bool.and_eq_true, decide_eq_true_eq]
    exact ⟨by omega, hp⟩
  · rintro ⟨g, hg, hp⟩
    rw [Bool.and_eq_true, decide_eq_true_eq] at hp
    exact ⟨g, by omega, by omega, hp.2⟩

theorem has_orders_down_eq (fsm : ElevatorFSM) (hf : fsm.state.floor < fsm.n_floors) :
    has_orders_in_direction fsm Direction.Down = spec_orders_below fsm := by
  unfold has_orders_in_direction spec_orders_below order_at_floor
  rw [Bool.eq_iff_iff, any_range_iff, any_range_iff]
  constructor
  · rintro ⟨g, hg, hp⟩
    refine ⟨g, by omega, ?_⟩
    rw [Bool.and_eq_true, decide_eq_true_eq]
    exact ⟨hg, hp⟩
  · rintro ⟨g, hg, hp⟩
    rw [Bool.and_eq_true, decide_eq_true_eq] at hp
    exact ⟨g, hp.1, hp.2⟩

theorem has_orders_stop_eq (fsm : ElevatorFSM) :
    has_orders_in_direction fsm Direction.Stop = false := rfl

/-- C6: `choose_direction` implements exactly the four-rule policy of
§4.1.3 — it keeps the current direction when orders exist strictly
beyond the current floor in that direction, otherwise reverses when the
opposite side has orders, otherwise (from Stop) picks Up before Down,
otherwise stays Stop, where an order at floor f means
cab[f] ∨ hall_up[f] ∨ hall_down[f]. -/
theorem C6_choose_direction_follows_spec (fsm : ElevatorFSM)
    (hf : fsm.state.floor < fsm.n_floors) :
    choose_direction fsm = spec_choose_direction fsm := by
  have hup := has_orders_up_eq fsm
  have hdown := has_orders_down_eq fsm hf
  have hstop := has_orders_stop_eq fsm
  rcases hd : fsm.state.direction <;>
    rcases h1 : spec_orders_above fsm <;>
    rcases h2 : spec_orders_below fsm <;>
      simp [choose_direction, spec_choose_direction, hd, hup, hdown, hstop, h1, h2]

/-- Witness for `C6_choose_direction_follows_spec`: a concrete Idle state
at floor 1 of 4 with a hall-up call above chooses Up under both the code
and the spec policy. -/
theorem C6_choose_direction_follows_spec_witness :
    choose_direction
        { hall_requests := [[false, false], [false, false], [true, false], [false, false]]
          state := { behaviour := Behaviour.Idle
                     floor := 1
                     direction := Direction.Stop
                     cab_requests := [false, false, false, false] }
          n_floors := 4
          obstruction := false
          peer_enable := true }
      = spec_choose_direction
        { hall_requests := [[false, false], [false, false], [true, false], [false, false]]
          state := { behaviour := Behaviour.Idle
                     floor := 1
                     direction := Direction.Stop
                     cab_requests := [false, false, false, false] }
          n_floors := 4
          obstruction := false
          peer_enable := true } :=
  C6_choose_direction_follows_spec _ (by decide)

/-! ## C5: order completion -/

/-- C5: at the current floor F, `complete_orders` completes a cab call
always; a hall-up call iff direction is Up, behaviour is Idle, or F is
the bottom floor; a hall-down call iff direction is Down, behaviour is
Idle, or F is the top floor.  Completed flags are cleared, a completion
event `(F, kind)` is emitted per completed call, and the returned flag
is true iff at least one order was completed. -/
theorem C5_complete_orders (fsm : ElevatorFSM)
    (hf : fsm.state.floor < fsm.n_floors)
    (hcab : fsm.state.cab_requests.length = fsm.n_floors)
    (hhall : fsm.hall_requests.length = fsm.n_floors)
    (hrow : (fsm.hall_requests.getD fsm.state.floor []).length = 2) :
    ((FSMOutput.orderComplete fsm.state.floor CAB ∈ (complete_orders fsm).2.1)
        ↔ fsm.state.cab_requests.getD fsm.state.floor false = true)
    ∧ ((FSMOutput.orderComplete fsm.state.floor HALL_UP ∈ (complete_orders fsm).2.1)
        ↔ (getHall fsm.hall_requests fsm.state.floor HALL_UP = true
            ∧ (fsm.state.direction = Direction.Up ∨ fsm.state.behaviour = Behaviour.Idle
                ∨ fsm.state.floor = 0)))
    ∧ ((FSMOutput.orderComplete fsm.state.floor HALL_DOWN ∈ (complete_orders fsm).2.1)
        ↔ (getHall fsm.hall_requests fsm.state.floor HALL_DOWN = true
            ∧ (fsm.state.direction = Direction.Down ∨ fsm.state.behaviour = Behaviour.Idle
                ∨ fsm.state.floor = fsm.n_floors - 1)))
    ∧ (complete_orders fsm).1.state.cab_requests.getD fsm.state.floor false = false
    ∧ (getHall fsm.hall_requests fsm.state.floor HALL_UP = true
        ∧ (fsm.state.direction = Direction.Up ∨ fsm.state.behaviour = Behaviour.Idle
            ∨ fsm.state.floor = 0)
        → getHall (complete_orders fsm).1.hall_requests fsm.state.floor HALL_UP = false)
    ∧ (getHall fsm.hall_requests fsm.state.floor HALL_DOWN = true
        ∧ (fsm.state.direction = Direction.Down ∨ fsm.state.behaviour = Behaviour.Idle
            ∨ fsm.state.floor = fsm.n_floors - 1)
        → getHall (complete_orders fsm).1.hall_requests fsm.state.floor HALL_DOWN = false)
    ∧ (((complete_orders fsm).2.2 = true)
        ↔ (fsm.state.cab_requests.getD fsm.state.floor false = true
            ∨ (getHall fsm.hall_requests fsm.state.floor HALL_UP = true
                ∧ (fsm.state.direction = Direction.Up ∨ fsm.state.behaviour = Behaviour.Idle
                    ∨ fsm.state.floor = 0))
            ∨ (getHall fsm.hall_requests fsm.state.floor HALL_DOWN = true
                ∧ (fsm.state.direction = Direction.Down ∨ fsm.state.behaviour = Behaviour.Idle
                    ∨ fsm.state.floor = fsm.n_floors - 1)))) := by
  have hfl : fsm.state.floor < fsm.state.cab_requests.length := by omega
  have hfh : fsm.state.floor < fsm.hall_requests.length := by omega
  have ecab : (fsm.state.cab_requests.set fsm.state.floor false).getD fsm.state.floor false
      = false := getD_set_self _ _ _ _ hfl
  have e0 : getHall (setHall fsm.hall_requests fsm.state.floor 0 false) fsm.state.floor 0
      = false := getHall_setHall_self hfh (by omega)
  have e1 : getHall (setHall fsm.hall_requests fsm.state.floor 1 false) fsm.state.floor 1
      = false := getHall_setHall_self hfh (by omega)
  have e2 : getHall (setHall (setHall fsm.hall_requests fsm.state.floor 0 false)
        fsm.state.floor 1 false) fsm.state.floor 1 = false :=
    getHall_setHall_self (by rw [length_setHall]; omega)
      (by rw [rowlen_setHall]; omega)
  have e3 : getHall (setHall (setHall fsm.hall_requests fsm.state.floor 0 false)
        fsm.state.floor 1 false) fsm.state.floor 0 = false := by
    rw [getHall_setHall_ne_k (by omega)]
    exact e0
  unfold complete_orders
  dsimp only
  split_ifs with h1 h2 h3 <;>
    simp_all [HALL_UP, HALL_DOWN, CAB] <;>
    tauto

/-- Witness for `C5_complete_orders`: Idle at floor 1 of 3 with a cab
call and a hall-down call at floor 1; both are completed. -/
theorem C5_complete_orders_witness :
    ((FSMOutput.orderComplete 1 CAB
        ∈ (complete_orders
            { hall_requests := [[false, false], [false, true], [false, false]]
              state := { behaviour := Behaviour.Idle
                         floor := 1
                         direction := Direction.Stop
                         cab_requests := [false, true, false] }
              n_floors := 3
              obstruction := false
              peer_enable := true }).2.1)
      ↔ ([false, true, false].getD 1 false = true)) :=
  (C5_complete_orders _ (by decide) (by decide) (by decide) (by decide)).1

/-! ## C10: the bottom-floor rule -/

/-- C10 counterexample: at floor 0 with a pending HALL_DOWN request,
direction Up and behaviour Moving, `complete_orders` does NOT clear the
request (the code's unconditional bottom-floor rule is on HALL_UP, and
HALL_DOWN at floor 0 is cleared only when direction is Down, behaviour
is Idle, or floor 0 is also the top floor). -/
theorem C10_counterexample :
    getHall bottomPendingFSM.hall_requests 0 HALL_DOWN = true
      ∧ getHall (complete_orders bottomPendingFSM).1.hall_requests 0 HALL_DOWN = true
      ∧ (complete_orders bottomPendingFSM).2.2 = false :=
  ⟨rfl, rfl, rfl⟩

/-- C10 (amended): at floor 0 a pending HALL_UP request is always
cleared by `complete_orders`, regardless of the current direction and
behaviour (the bottom-floor rule), and the matching completion event is
emitted. -/
theorem C10_bottom_floor_rule (fsm : ElevatorFSM)
    (h0 : fsm.state.floor = 0)
    (hlen : 0 < fsm.hall_requests.length)
    (hrow : (fsm.hall_requests.getD 0 []).length = 2)
    (hup : getHall fsm.hall_requests 0 HALL_UP = true) :
    getHall (complete_orders fsm).1.hall_requests 0 HALL_UP = false
      ∧ FSMOutput.orderComplete 0 HALL_UP ∈ (complete_orders fsm).2.1 := by
  have e0 : getHall (setHall fsm.hall_requests 0 0 false) 0 0 = false :=
    getHall_setHall_self hlen (by omega)
  have e3 : getHall (setHall (setHall fsm.hall_requests 0 0 false) 0 1 false) 0 0
      = false := by
    rw [getHall_setHall_ne_k (by omega)]
    exact e0
  unfold complete_orders
  dsimp only
  simp only [h0]
  split_ifs with h1 h2 h3 <;> simp_all [HALL_UP, HALL_DOWN, CAB]

/-- Witness for `C10_bottom_floor_rule` at a concrete Moving-Up state. -/
theorem C10_bottom_floor_rule_witness :
    getHall (complete_orders
        { hall_requests := [[true, false], [false, false]]
          state := { behaviour := Behaviour.Moving
                     floor := 0
                     direction := Direction.Up
                     cab_requests := [false, false] }
          n_floors := 2
          obstruction := false
          peer_enable := true }).1.hall_requests 0 HALL_UP = false
      ∧ FSMOutput.orderComplete 0 HALL_UP ∈ (complete_orders
        { hall_requests := [[true, false], [false, false]]
          state := { behaviour := Behaviour.Moving
                     floor := 0
                     direction := Direction.Up
                     cab_requests := [false, false] }
          n_floors := 2
          obstruction := false
          peer_enable := true }).2.1 :=
  C10_bottom_floor_rule _ rfl (by decide) (by decide) (by decide)

/-! ## C3: the FSM never reaches behaviour Error -/

theorem complete_orders_behaviour (fsm : ElevatorFSM) :
    (complete_orders fsm).1.state.behaviour = fsm.state.behaviour := by
  unfold complete_orders
  dsimp only
  split_ifs <;> rfl

theorem complete_orders_peer (fsm : ElevatorFSM) :
    (complete_orders fsm).1.peer_enable = fsm.peer_enable := by
  unfold complete_orders
  dsimp only
  split_ifs <;> rfl

theorem open_door_behaviour (fsm : ElevatorFSM) :
    (open_door fsm).1.state.behaviour = Behaviour.DoorOpen := rfl

theorem open_door_peer (fsm : ElevatorFSM) :
    (open_door fsm).1.peer_enable = fsm.peer_enable := rfl

theorem handle_floor_hit_behaviour_ok (fsm : ElevatorFSM) (f : Nat) :
    behaviour_ok (handle_floor_hit fsm f).1 := by
  unfold handle_floor_hit
  dsimp only
  split_ifs <;>
    simp [behaviour_ok, open_door_behaviour]

theorem fsm_tick_behaviour_ok (fsm : ElevatorFSM) (d m : Bool)
    (h : behaviour_ok fsm) : behaviour_ok (fsm_tick fsm d m).1 := by
  unfold fsm_tick
  rcases h with h | h | h <;> rw [h] <;> dsimp only <;>
    split_ifs <;>
    simp [behaviour_ok, open_door_behaviour, complete_orders_behaviour, h]

theorem fsm_step_behaviour_ok (e : FSMEvent) (fsm : ElevatorFSM)
    (h : behaviour_ok fsm) : behaviour_ok (fsm_step e fsm).1 := by
  cases e with
  | floorSensor f => exact handle_floor_hit_behaviour_ok fsm f
  | hallRequestsMsg hm => exact h
  | cabRequest f => exact h
  | stopButton b => exact h
  | obstructionMsg b => exact h
  | tick d m => exact fsm_tick_behaviour_ok fsm d m h

/-- Shared helper: the Moving-branch tick with an expired motor timer
keeps behaviour Moving, disables the peer transmitter and retries the
motor command, publishing nothing. -/
theorem motor_timeout_tick (fsm : ElevatorFSM) (d : Bool)
    (hb : fsm.state.behaviour = Behaviour.Moving)
    (hp : fsm.peer_enable = true) :
    (fsm_tick fsm d true).1.state.behaviour = Behaviour.Moving
      ∧ (fsm_tick fsm d true).1.peer_enable = false
      ∧ (fsm_tick fsm d true).2
          = [FSMOutput.peerEnable false, FSMOutput.motorDir fsm.state.direction] := by
  unfold fsm_tick
  rw [hb]
  simp [hp, hb]

/-- Shared helper: a floor-sensor edge while Moving with the peer
transmitter disabled re-enables it and sends `true` on the
peer-transmit-enable channel. -/
theorem floor_hit_restores_peer (fsm : ElevatorFSM) (f : Nat)
    (hb : fsm.state.behaviour = Behaviour.Moving)
    (hp : fsm.peer_enable = false) :
    FSMOutput.peerEnable true ∈ (handle_floor_hit fsm f).2
      ∧ (handle_floor_hit fsm f).1.peer_enable = true := by
  unfold handle_floor_hit
  dsimp only
  rw [hb, hp]
  split_ifs <;>
    simp_all [open_door_peer, complete_orders_peer]

/-- C3: for every reachable FSM state the behaviour is Idle, Moving or
DoorOpen (no operation ever assigns `Behaviour::Error`); on a
motor-timeout tick while Moving the FSM instead sends `false` on the
peer-transmit-enable channel and stays Moving; and on the next
floor-sensor edge while Moving with the peer transmitter disabled it
sends `true` again. -/
theorem C3_fsm_behaviour_invariant (n_floors : Nat) :
    (∀ fsm, FSMReachable n_floors fsm →
        (fsm.state.behaviour = Behaviour.Idle ∨ fsm.state.behaviour = Behaviour.Moving
          ∨ fsm.state.behaviour = Behaviour.DoorOpen))
    ∧ (∀ fsm (d : Bool), fsm.state.behaviour = Behaviour.Moving → fsm.peer_enable = true →
        ((fsm_step (FSMEvent.tick d true) fsm).1.state.behaviour = Behaviour.Moving
          ∧ FSMOutput.peerEnable false ∈ (fsm_step (FSMEvent.tick d true) fsm).2))
    ∧ (∀ fsm (f : Nat), fsm.state.behaviour = Behaviour.Moving → fsm.peer_enable = false →
        (FSMOutput.peerEnable true ∈ (fsm_step (FSMEvent.floorSensor f) fsm).2
          ∧ (fsm_step (FSMEvent.floorSensor f) fsm).1.peer_enable = true)) := by
  refine ⟨?_, ?_, ?_⟩
  · intro fsm hreach
    induction hreach with
    | init cab => exact Or.inl rfl
    | step e s hs ih => exact fsm_step_behaviour_ok e s ih
  · intro fsm d hb hp
    have h := motor_timeout_tick fsm d hb hp
    refine ⟨h.1, ?_⟩
    show FSMOutput.peerEnable false ∈ (fsm_tick fsm d true).2
    rw [h.2.2]
    exact List.mem_cons_self _ _
  · intro fsm f hb hp
    exact floor_hit_restores_peer fsm f hb hp

/-- Witness for `C3_fsm_behaviour_invariant`, instantiating all three
clauses at concrete states. -/
theorem C3_fsm_behaviour_invariant_witness :
    ((initFSM 2 [false, false]).state.behaviour = Behaviour.Idle
        ∨ (initFSM 2 [false, false]).state.behaviour = Behaviour.Moving
        ∨ (initFSM 2 [false, false]).state.behaviour = Behaviour.DoorOpen)
      ∧ ((fsm_step (FSMEvent.tick false true) movingFSM).1.state.behaviour
            = Behaviour.Moving
          ∧ FSMOutput.peerEnable false ∈ (fsm_step (FSMEvent.tick false true) movingFSM).2)
      ∧ (FSMOutput.peerEnable true
            ∈ (fsm_step (FSMEvent.floorSensor 1) { movingFSM with peer_enable := false }).2
          ∧ (fsm_step (FSMEvent.floorSensor 1)
              { movingFSM with peer_enable := false }).1.peer_enable = true) :=
  ⟨(C3_fsm_behaviour_invariant 2).1 _ (FSMReachable.init [false, false]),
    (C3_fsm_behaviour_invariant 2).2.1 movingFSM false rfl rfl,
    (C3_fsm_behaviour_invariant 2).2.2 { movingFSM with peer_enable := false } 1 rfl rfl⟩

/-! ## C1: the merge classifier -/

/-- C1: the incoming snapshot contains peer id "B" absent from the local
states, so the claim (and spec §4.2.1) requires `Merge`; the code
instead returns `Reject`, because `check_merge_type` scans the LOCAL
keys for absence from the incoming snapshot (and even that flag is
overwritten on every iteration), never the incoming keys for absence
from the local states. -/
theorem C1_check_merge_type_eval :
    containsKey c1_incoming.states "B" = true
      ∧ containsKey c1_local.elevator_data.states "B" = false
      ∧ c1_incoming.version = c1_local.elevator_data.version
      ∧ check_merge_type c1_local c1_incoming = MergeType.Reject :=
  ⟨rfl, rfl, rfl, rfl⟩

/-! ## C7: merge is elementwise OR, commutative and idempotent -/

theorem pair_of_length_two :
    ∀ (r : List Bool), r.length = 2 → r = [r.getD 0 false, r.getD 1 false]
  | [_, _], _ => rfl
  | [], h => by simp at h
  | [_], h => by simp at h
  | _ :: _ :: _ :: _, h => by simp at h

theorem getD_setHall_row_ne (m : HallMatrix) (g f k : Nat) (b : Bool) (h : g ≠ f) :
    (setHall m g k b).getD f [] = m.getD f [] := by
  unfold setHall
  exact getD_set_ne _ _ _ _ _ h

theorem merge_hall_requests_succ (n : Nat) (L I : HallMatrix) :
    merge_hall_requests (n + 1) L I =
      (fun acc floor =>
        let acc1 := setHall acc floor HALL_DOWN
          (getHall acc floor HALL_DOWN || getHall I floor HALL_DOWN)
        setHall acc1 floor HALL_UP
          (getHall acc1 floor HALL_UP || getHall I floor HALL_UP))
        (merge_hall_requests n L I) n := by
  unfold merge_hall_requests
  rw [List.range_succ, List.foldl_append, List.foldl_cons, List.foldl_nil]

theorem merge_length (n : Nat) (L I : HallMatrix) :
    (merge_hall_requests n L I).length = L.length := by
  induction n with
  | zero => rfl
  | succ n ih =>
      rw [merge_hall_requests_succ]
      dsimp only
      rw [length_setHall, length_setHall]
      exact ih

theorem merge_row_ge (n : Nat) (L I : HallMatrix) :
    ∀ f, n ≤ f → (merge_hall_requests n L I).getD f [] = L.getD f [] := by
  induction n with
  | zero => intro f _; rfl
  | succ n ih =>
      intro f hf
      rw [merge_hall_requests_succ]
      dsimp only
      rw [getD_setHall_row_ne _ _ _ _ _ (by omega),
        getD_setHall_row_ne _ _ _ _ _ (by omega)]
      exact ih f (by omega)

theorem merge_rowlen (n : Nat) (L I : HallMatrix) (f : Nat) :
    ((merge_hall_requests n L I).getD f []).length = (L.getD f []).length := by
  induction n with
  | zero => rfl
  | succ n ih =>
      rw [merge_hall_requests_succ]
      dsimp only
      rw [rowlen_setHall, rowlen_setHall]
      exact ih

theorem merge_get_ge (n : Nat) (L I : HallMatrix) (f k : Nat) (h : n ≤ f) :
    getHall (merge_hall_requests n L I) f k = getHall L f k := by
  unfold getHall
  rw [merge_row_ge n L I f h]

theorem merge_get (n : Nat) (L I : HallMatrix) :
    ∀ f k, f < n → f < L.length → (L.getD f []).length = 2 → k < 2 →
      getHall (merge_hall_requests n L I) f k = (getHall L f k || getHall I f k) := by
  induction n with
  | zero => intro f k hf _ _ _; omega
  | succ n ih =>
      intro f k hf hfL hrow hk
      rw [merge_hall_requests_succ]
      dsimp only
      by_cases hfn : f = n
      · subst hfn
        simp only [HALL_UP, HALL_DOWN]
        have hlenM : f < (merge_hall_requests f L I).length := by
          rw [merge_length]; exact hfL
        have hrowM : ((merge_hall_requests f L I).getD f []).length = 2 := by
          rw [merge_rowlen]; exact hrow
        have hlenA1 : f < (setHall (merge_hall_requests f L I) f 1
              (getHall (merge_hall_requests f L I) f 1 || getHall I f 1)).length := by
          rw [length_setHall]; exact hlenM
        have hrowA1 : ((setHall (merge_hall_requests f L I) f 1
              (getHall (merge_hall_requests f L I) f 1
                || getHall I f 1)).getD f []).length = 2 := by
          rw [rowlen_setHall]; exact hrowM
        interval_cases k
        · rw [getHall_setHall_self hlenA1 (by omega)]
          rw [getHall_setHall_ne_k (by decide)]
          rw [merge_get_ge f L I f 0 (le_refl f)]
        · rw [getHall_setHall_ne_k (by decide)]
          rw [getHall_setHall_self hlenM (by omega)]
          rw [merge_get_ge f L I f 1 (le_refl f)]
      · rw [getHall_setHall_ne_f (by omega), getHall_setHall_ne_f (by omega)]
        exact ih f k (by omega) hfL hrow hk

theorem merge_row_lt (n : Nat) (L I : HallMatrix) :
    ∀ f, f < n → f < L.length → (L.getD f []).length = 2 →
      (merge_hall_requests n L I).getD f []
        = [getHall L f HALL_UP || getHall I f HALL_UP,
           getHall L f HALL_DOWN || getHall I f HALL_DOWN] := by
  intro f hf hfL hrow
  have hrowM : ((merge_hall_requests n L I).getD f []).length = 2 := by
    rw [merge_rowlen]; exact hrow
  have hpair := pair_of_length_two _ hrowM
  rw [hpair]
  have h0 := merge_get n L I f 0 hf hfL hrow (by omega)
  have h1 := merge_get n L I f 1 hf hfL hrow (by omega)
  unfold getHall at h0 h1
  rw [h0, h1]
  rfl

theorem merge_eq_of_rows (n : Nat) (M N' : HallMatrix)
    (hlen : M.length = n) (hlen' : N'.length = n)
    (hrows : ∀ f, f < n → M.getD f [] = N'.getD f []) : M = N' := by
  apply List.ext_getElem (by omega)
  intro i h1 h2
  have := hrows i (by omega)
  rwa [List.getD_eq_getElem M [] h1, List.getD_eq_getElem N' [] h2] at this

/-- C7: on N×2 matrices the Merge update of hall_requests is the
elementwise OR, and it is commutative and idempotent. -/
theorem C7_merge_or_comm_idem (n : Nat) (A B : HallMatrix)
    (hA : A.length = n) (hA2 : ∀ r ∈ A, r.length = 2)
    (hB : B.length = n) (hB2 : ∀ r ∈ B, r.length = 2) :
    (∀ f, f < n →
        (merge_hall_requests n A B).getD f []
          = [getHall A f HALL_UP || getHall B f HALL_UP,
             getHall A f HALL_DOWN || getHall B f HALL_DOWN])
      ∧ merge_hall_requests n A B = merge_hall_requests n B A
      ∧ merge_hall_requests n A A = A := by
  have hrowA : ∀ f, f < n → (A.getD f []).length = 2 := by
    intro f hf
    have hfA : f < A.length := by omega
    rw [List.getD_eq_getElem A [] hfA]
    exact hA2 _ (List.getElem_mem _)
  have hrowB : ∀ f, f < n → (B.getD f []).length = 2 := by
    intro f hf
    have hfB : f < B.length := by omega
    rw [List.getD_eq_getElem B [] hfB]
    exact hB2 _ (List.getElem_mem _)
  refine ⟨?_, ?_, ?_⟩
  · intro f hf
    exact merge_row_lt n A B f hf (by omega) (hrowA f hf)
  · apply merge_eq_of_rows n _ _ (by rw [merge_length]; omega) (by rw [merge_length]; omega)
    intro f hf
    rw [merge_row_lt n A B f hf (by omega) (hrowA f hf),
      merge_row_lt n B A f hf (by omega) (hrowB f hf),
      Bool.or_comm (getHall A f HALL_UP), Bool.or_comm (getHall A f HALL_DOWN)]
  · apply merge_eq_of_rows n _ _ (by rw [merge_length]; omega) (by omega)
    intro f hf
    rw [merge_row_lt n A A f hf (by omega) (hrowA f hf), Bool.or_self, Bool.or_self]
    unfold getHall
    exact (pair_of_length_two _ (hrowA f hf)).symm

/-- Witness for `C7_merge_or_comm_idem` on concrete 2×2 matrices. -/
theorem C7_merge_or_comm_idem_witness :
    merge_hall_requests 2 [[true, false], [false, false]] [[false, false], [false, true]]
        = merge_hall_requests 2 [[false, false], [false, true]] [[true, false], [false, false]]
      ∧ merge_hall_requests 2 [[true, false], [false, true]] [[true, false], [false, true]]
          = [[true, false], [false, true]] :=
  ⟨(C7_merge_or_comm_idem 2 [[true, false], [false, false]] [[false, false], [false, true]]
      rfl (by decide) rfl (by decide)).2.1,
    (C7_merge_or_comm_idem 2 [[true, false], [false, true]] [[true, false], [false, true]]
      rfl (by decide) rfl (by decide)).2.2⟩

/-! ## C8: applying the same snapshot twice -/

theorem hra_false_keeps_state (oracle : Assigner) (c : Coordinator) :
    (hall_request_assigner oracle c false).1 = c := by
  unfold hall_request_assigner
  dsimp only
  split_ifs <;> first | rfl | contradiction

theorem contains_of_mem (m : States) (kv : String × ElevatorState) (h : kv ∈ m) :
    containsKey m kv.1 = true := by
  unfold containsKey
  rw [List.any_eq_true]
  exact ⟨kv, h, by simp⟩

theorem flagfold_false (inc : States) :
    ∀ (l : States), (∀ kv ∈ l, containsKey inc kv.1 = true) →
      l.foldl (fun _ kv => !(containsKey inc kv.1)) false = false
  | [], _ => rfl
  | x :: xs, h => by
      rw [List.foldl_cons]
      have hx : (!(containsKey inc x.1)) = false := by
        rw [h x (List.mem_cons_self x xs)]
        rfl
      rw [hx]
      exact flagfold_false inc xs (fun kv hkv => h kv (List.mem_cons_of_mem x hkv))

theorem check_merge_type_self (c : Coordinator) (i : ElevatorData)
    (hs : c.elevator_data.states = i.states)
    (hv : c.elevator_data.version = i.version) :
    check_merge_type c i = MergeType.Reject := by
  unfold check_merge_type
  rw [hs, hv]
  rw [flagfold_false i.states i.states (fun kv hkv => contains_of_mem i.states kv hkv)]
  simp

theorem handle_new_package_reject (oracle : Assigner) (c : Coordinator)
    (i : ElevatorData) (h : check_merge_type c i = MergeType.Reject) :
    handle_new_package oracle c i = (c, []) := by
  unfold handle_new_package
  rw [h]

theorem handle_new_package_accept_fst (oracle : Assigner) (c : Coordinator)
    (i : ElevatorData) (h : check_merge_type c i = MergeType.Accept) :
    (handle_new_package oracle c i).1
      = { c with elevator_data :=
          { version := i.version
            hall_requests := i.hall_requests
            states := i.states } } := by
  unfold handle_new_package
  rw [h]
  dsimp only
  exact hra_false_keeps_state oracle _

/-- C8 counterexample: the first application of the snapshot is a Merge
(the last local key "L" is absent from the incoming states); the merge
appends "A", after which the classifier's overwritten flag is false, so
the second application of the SAME snapshot is an Accept that changes
`elevator_data` (version 0 → 1, the locally pending hall call is
dropped, and the local entry "L" disappears).  This refutes the claim
that the second application leaves the local data identical. -/
theorem C8_counterexample :
    (handle_new_package oracle0
        (handle_new_package oracle0 c8_local c8_incoming).1 c8_incoming).1.elevator_data
      ≠ (handle_new_package oracle0 c8_local c8_incoming).1.elevator_data := by
  decide

/-- C8 (amended): when the first application of a snapshot is NOT a
Merge (it is an Accept or a Reject), handling the same snapshot again
immediately afterwards leaves `elevator_data` identical to its value
after the first application and the second application produces no
outbound traffic at all (in particular no network transmission); after
a Merge that appends unknown peers while the incoming version is
higher, the second application can instead be a data-changing Accept. -/
theorem C8_second_application_no_effect (oracle : Assigner) (c : Coordinator)
    (i : ElevatorData) (h : check_merge_type c i ≠ MergeType.Merge) :
    (handle_new_package oracle
        (handle_new_package oracle c i).1 i).1.elevator_data
      = (handle_new_package oracle c i).1.elevator_data
    ∧ (handle_new_package oracle (handle_new_package oracle c i).1 i).2 = [] := by
  rcases hm : check_merge_type c i with _ | _ | _
  · exact absurd hm h
  · have hfirst := handle_new_package_accept_fst oracle c i hm
    have hsec : check_merge_type (handle_new_package oracle c i).1 i
        = MergeType.Reject := by
      apply check_merge_type_self
      · rw [hfirst]
      · rw [hfirst]
    rw [handle_new_package_reject oracle _ i hsec]
    exact ⟨rfl, rfl⟩
  · have hfirst := handle_new_package_reject oracle c i hm
    have hsec : check_merge_type (handle_new_package oracle c i).1 i
        = MergeType.Reject := by
      rw [hfirst]
      exact hm
    rw [handle_new_package_reject oracle _ i hsec]
    exact ⟨rfl, rfl⟩

/-- Witness for `C8_second_application_no_effect`: a concrete Accept
(first application) followed by the same snapshot again. -/
theorem C8_second_application_no_effect_witness :
    (handle_new_package oracle0
        (handle_new_package oracle0 c1_local c8_incoming).1 c8_incoming).1.elevator_data
      = (handle_new_package oracle0 c1_local c8_incoming).1.elevator_data
    ∧ (handle_new_package oracle0
        (handle_new_package oracle0 c1_local c8_incoming).1 c8_incoming).2 = [] :=
  C8_second_application_no_effect oracle0 c1_local c8_incoming (by decide)

/-! ## C9: the assigner filters Error states -/

theorem remove_error_states_no_error (s : States) :
    ∀ kv ∈ remove_error_states s, ¬(kv.2.behaviour = Behaviour.Error) := by
  intro kv hkv
  unfold remove_error_states at hkv
  have h := List.of_mem_filter hkv
  simpa using h

/-- C9: every invocation of the external assigner receives exactly the
local states with all Error-behaviour entries removed; and when no
states remain after that filtering, the outputs are exactly the full
local hall_requests matrix forwarded to the FSM (plus, when
transmitting, the bumped snapshot to the network) with no assigner
invocation at all. -/
theorem C9_assigner_filters_error (oracle : Assigner) (c : Coordinator)
    (transmit : Bool) :
    (∀ hall st, COutput.assignerCall hall st ∈ (hall_request_assigner oracle c transmit).2 →
        (st = remove_error_states c.elevator_data.states
          ∧ ∀ kv ∈ st, ¬(kv.2.behaviour = Behaviour.Error)))
    ∧ (remove_error_states c.elevator_data.states = [] →
        (hall_request_assigner oracle c transmit).2
          = COutput.fsmHall c.elevator_data.hall_requests ::
              (if transmit then
                [COutput.netSend
                  { c.elevator_data with version := c.elevator_data.version + 1 }]
              else [])) := by
  constructor
  · intro hall st hmem
    unfold hall_request_assigner at hmem
    dsimp only at hmem
    split_ifs at hmem with h1 h2 h3 <;> simp at hmem
    · obtain ⟨hh, hs⟩ := hmem
      subst hs
      exact ⟨rfl, remove_error_states_no_error _⟩
    · obtain ⟨hh, hs⟩ := hmem
      subst hs
      exact ⟨rfl, remove_error_states_no_error _⟩
  · intro hempty
    unfold hall_request_assigner
    dsimp only
    rw [hempty]
    rcases transmit <;> simp

/-- Witness for `C9_assigner_filters_error`, instantiating both clauses:
with a healthy state the assigner input is the filtered map; with only
an Error state the full matrix goes straight to the FSM. -/
theorem C9_assigner_filters_error_witness :
    (([("L", oneFloorState)] : States)
          = remove_error_states c8_local.elevator_data.states
        ∧ ∀ kv ∈ ([("L", oneFloorState)] : States),
            ¬(kv.2.behaviour = Behaviour.Error))
    ∧ (hall_request_assigner oracle0
        { elevator_data :=
            { version := 3
              hall_requests := [[true, false]]
              states := [("L", { oneFloorState with behaviour := Behaviour.Error })] }
          local_id := "L"
          n_floors := 1 } false).2
      = [COutput.fsmHall [[true, false]]] :=
  ⟨(C9_assigner_filters_error oracle0 c8_local false).1
      c8_local.elevator_data.hall_requests [("L", oneFloorState)] (by decide),
    (C9_assigner_filters_error oracle0
      { elevator_data :=
          { version := 3
            hall_requests := [[true, false]]
            states := [("L", { oneFloorState with behaviour := Behaviour.Error })] }
        local_id := "L"
        n_floors := 1 } false).2 (by decide)⟩

/-! ## C4: presence of the local entry -/

theorem containsKey_map_keys (m : States)
    (g : String × ElevatorState → String × ElevatorState)
    (hg : ∀ kv, (g kv).1 = kv.1) (k : String) :
    containsKey (m.map g) k = containsKey m k := by
  unfold containsKey
  rw [List.any_map]
  have : ((fun kv : String × ElevatorState => kv.1 == k) ∘ g)
      = (fun kv : String × ElevatorState => kv.1 == k) := by
    funext kv
    simp [Function.comp, hg kv]
  rw [this]

theorem containsKey_insertState (m : States) (k : String) (v : ElevatorState)
    (k' : String) (h : containsKey m k' = true) :
    containsKey (insertState m k v) k' = true := by
  unfold insertState
  split_ifs with hc
  · rw [containsKey_map_keys]
    · exact h
    · intro kv
      dsimp only
      split_ifs <;> rfl
  · unfold containsKey at h ⊢
    rw [List.any_append, h]
    rfl

theorem containsKey_removeState (m : States) (k k' : String)
    (h : containsKey m k' = true) (hne : ¬(k' = k)) :
    containsKey (removeState m k) k' = true := by
  unfold containsKey at h ⊢
  unfold removeState
  rw [List.any_eq_true] at h ⊢
  obtain ⟨kv, hkv, hp⟩ := h
  refine ⟨kv, List.mem_filter.mpr ⟨hkv, ?_⟩, hp⟩
  have hk : kv.1 = k' := by simpa using hp
  simp [hk, hne]

theorem containsKey_lost_fold (lid : String) :
    ∀ (lost : List String) (m : States), containsKey m lid = true →
      containsKey
        (lost.foldl (fun acc id => if !(id == lid) then removeState acc id else acc) m)
        lid = true
  | [], _, h => h
  | x :: xs, m, h => by
      rw [List.foldl_cons]
      apply containsKey_lost_fold lid xs
      split_ifs with hx
      · refine containsKey_removeState _ _ _ h ?_
        intro heq
        simp at hx
        exact hx heq.symm
      · exact h

theorem containsKey_merge_states (lid k : String) :
    ∀ (incoming m : States), containsKey m k = true →
      containsKey (merge_states lid m incoming) k = true
  | [], _, h => h
  | kv :: rest, m, h => by
      unfold merge_states
      rw [List.foldl_cons]
      exact containsKey_merge_states lid k rest _ (by
        split_ifs
        · exact containsKey_insertState m kv.1 kv.2 k h
        · exact h)

theorem hra_states (oracle : Assigner) (c : Coordinator) (t : Bool) :
    (hall_request_assigner oracle c t).1.elevator_data.states
      = c.elevator_data.states := by
  unfold hall_request_assigner
  dsimp only
  split_ifs <;> rfl

/-- C4 counterexample: the incoming snapshot lacks the local id "L" but
is classified Accept (the flag set while scanning "L" is overwritten
when "A" is scanned), and the Accept branch replaces `states`
wholesale, so the local entry disappears — refuting the claim that
handling any incoming snapshot leaves the local entry present. -/
theorem C4_counterexample :
    check_merge_type c4_local c4_incoming = MergeType.Accept
      ∧ containsKey
          (handle_new_package oracle0 c4_local c4_incoming).1.elevator_data.states
          "L" = false :=
  ⟨rfl, by decide⟩

/-- C4 (amended): every Coordinator event-handling operation that
completes without panicking preserves presence of the local entry —
peer-lost updates never remove it and Merge only adds or overwrites
non-local entries — EXCEPT that an Accept-classified snapshot replaces
`states` wholesale, so there the local entry survives exactly when the
incoming snapshot contains it (which the counterexample shows need not
hold). -/
theorem containsKey_getMutUpdate (m : States) (k : String)
    (f : ElevatorState → ElevatorState) (m' : States)
    (h : getMutUpdate m k f = some m') (k' : String) :
    containsKey m' k' = containsKey m k' := by
  unfold getMutUpdate at h
  split_ifs at h
  have hs := Option.some.inj h
  rw [← hs]
  apply containsKey_map_keys
  intro kv
  dsimp only
  split_ifs <;> rfl

theorem C4_local_entry_preserved (oracle : Assigner) (c : Coordinator)
    (e : CEvent) (r : Coordinator × List COutput)
    (hev : handle_event oracle c e = some r)
    (hpre : containsKey c.elevator_data.states c.local_id = true)
    (hacc : ∀ d, e = CEvent.NewPackage d → check_merge_type c d = MergeType.Accept →
        containsKey d.states c.local_id = true) :
    containsKey r.1.elevator_data.states c.local_id = true := by
  cases e with
  | NewPackage d =>
      have hr : r = handle_new_package oracle c d := by
        unfold handle_event at hev
        exact (Option.some.inj hev).symm
      subst hr
      rcases hm : check_merge_type c d with _ | _ | _
      · unfold handle_new_package
        rw [hm]
        dsimp only
        exact containsKey_merge_states c.local_id c.local_id d.states
          c.elevator_data.states hpre
      · unfold handle_new_package
        rw [hm]
        dsimp only
        rw [hra_states]
        exact hacc d rfl hm
      · rw [handle_new_package_reject oracle c d hm]
        exact hpre
  | RequestReceived req =>
      unfold handle_event at hev
      dsimp only at hev
      unfold handle_request_received at hev
      split_ifs at hev with h1 h2
      · rcases hmu : getMutUpdate c.elevator_data.states c.local_id
            (fun s => { s with cab_requests := s.cab_requests.set req.1 true })
            with _ | states'
        · rw [hmu] at hev
          simp at hev
        · rw [hmu] at hev
          dsimp only at hev
          simp only [Option.some.injEq] at hev
          subst hev
          dsimp only
          rw [containsKey_getMutUpdate _ _ _ _ hmu]
          exact hpre
      · simp only [Option.some.injEq] at hev
        subst hev
        dsimp only
        rw [hra_states]
        exact hpre
      · simp only [Option.some.injEq] at hev
        subst hev
        exact hpre
  | NewPeerUpdate p =>
      have hr : r = handle_new_peer_update oracle c p := by
        unfold handle_event at hev
        exact (Option.some.inj hev).symm
      subst hr
      unfold handle_new_peer_update
      dsimp only
      have h2 : containsKey
          (p.new.toList.foldl
            (fun acc id =>
              insertState acc id
                { behaviour := Behaviour.Idle
                  floor := 0
                  direction := Direction.Stop
                  cab_requests := List.replicate c.n_floors false })
            (p.lost.foldl
              (fun acc id => if !(id == c.local_id) then removeState acc id else acc)
              c.elevator_data.states))
          c.local_id = true := by
        have h1 := containsKey_lost_fold c.local_id p.lost c.elevator_data.states hpre
        rcases p.new with _ | id
        · exact h1
        · exact containsKey_insertState _ id _ c.local_id h1
      split_ifs with hl hn hn
      · rw [hra_states, hra_states]
        exact h2
      · rw [hra_states]
        exact h2
      · rw [hra_states]
        exact h2
      · exact h2
  | NewElevatorState s =>
      unfold handle_event at hev
      dsimp only at hev
      unfold handle_new_elevator_state at hev
      rcases hg : getState c.elevator_data.states c.local_id with _ | cur
      · rw [hg] at hev
        simp at hev
      · rw [hg] at hev
        dsimp only at hev
        simp only [Option.some.injEq] at hev
        subst hev
        dsimp only
        rw [hra_states]
        dsimp only
        rw [containsKey_map_keys]
        · exact hpre
        · intro kv
          dsimp only
          split_ifs <;> rfl
  | OrderComplete req =>
      unfold handle_event at hev
      dsimp only at hev
      unfold handle_order_complete at hev
      by_cases h1 : (req.2 == CAB) = true
      · rw [if_pos h1] at hev
        rcases hmu : getMutUpdate c.elevator_data.states c.local_id
            (fun s => { s with cab_requests := s.cab_requests.set req.1 false })
            with _ | states'
        · rw [hmu] at hev
          simp at hev
        · rw [hmu] at hev
          dsimp only at hev
          simp only [Option.some.injEq] at hev
          subst hev
          dsimp only
          have hreq : req.2 = 2 := by simpa [CAB] using h1
          have hh : (req.2 == HALL_DOWN || req.2 == HALL_UP) = false := by
            simp [hreq, HALL_DOWN, HALL_UP]
          rw [if_neg (by simp [hh])]
          rw [hra_states]
          dsimp only
          rw [containsKey_getMutUpdate _ _ _ _ hmu]
          exact hpre
      · rw [if_neg h1] at hev
        dsimp only at hev
        simp only [Option.some.injEq] at hev
        subst hev
        dsimp only
        split_ifs
        · rw [hra_states]
          exact hpre
        · rw [hra_states]
          exact hpre

/-- Witness for `C4_local_entry_preserved`: a peer-lost update naming
the local id leaves the local entry in place. -/
theorem C4_local_entry_preserved_witness :
    containsKey
      (handle_new_peer_update oracle0 c4_local
        { peers := [], new := none, lost := ["L", "A"] }).1.elevator_data.states
      "L" = true := by
  have h := C4_local_entry_preserved oracle0 c4_local
    (CEvent.NewPeerUpdate { peers := [], new := none, lost := ["L", "A"] })
    (handle_new_peer_update oracle0 c4_local
      { peers := [], new := none, lost := ["L", "A"] })
    rfl (by decide) (by intro d hd; cases hd)
  exact h

end Elev
